import Mathlib

/-!
# Verification of the Gutenberg inline link-editing subsystem

A shallow embedding of the rich-text link-insertion/editing interaction
(`InlineLinkUI`): the pure boundary locator `getFormatBoundary` and the
`onChangeLink` / `removeLink` handlers, together with models of the external
rich-text operations they consume.

Conventions of the embedding:
* A JavaScript string is a `List Char` when it is spliced character-wise
  (rich-text content) and a `String` when it is only compared or concatenated.
* A JavaScript value that may be `undefined` is an `Option`.
* JavaScript object identity (`===`) on format instances is modelled by a
  distinguishing `instId : Nat` field on `Format`, so that Lean equality on
  `Format` coincides with reference identity: two separately constructed
  instances carry different `instId`s even when type and attributes agree.
* The `formats` array of a rich text value is indexed by character position;
  an entry may be `undefined` (no formats on that character), hence
  `List (Option (List Format))`.
-/

namespace Gutenberg

/-- A rich-text format annotation: a tagged attribute bag
`\x7btype: string, attributes: map<string,string>\x7d`. The `instId` field models
JavaScript object identity, which the source compares with strict equality. -/
structure Format where
  ftype : String
  attrs : List (String × String)
  instId : Nat
deriving DecidableEq

/-- A rich text value: character sequence, per-character format annotations
(`formats[i]` may be absent), a `start`/`end` cursor pair and the active
format markers. -/
structure RichTextValue where
  text : List Char
  formats : List (Option (List Format))
  start : Nat
  «end» : Nat
  activeFormats : List Format
deriving DecidableEq

/-- Result of `getFormatBoundary`: a half-open index range, or the null
sentinel `\x7bstart: null, end: null\x7d` when the position is not inside the
target format. -/
structure FormatBoundary where
  start : Option Int
  «end» : Option Int
deriving DecidableEq

/-- The formats-array read `formats[i]`: `undefined` both for an absent entry
and for an out-of-range index. -/
def fmtEntry (formats : List (Option (List Format))) (i : Nat) :
    Option (List Format) :=
  (formats.get? i).bind id

/-- The loop condition of both walks in `getFormatBoundary`:
`newFormats[i] && newFormats[i][index] === startFormat`, evaluated at a
non-negative index `i`.  An out-of-range or absent entry is `undefined`
(falsy), and an out-of-range position `k` inside the entry reads as
`undefined`, never equal to `startFormat`. -/
def holdsAtN (formats : List (Option (List Format))) (k : Nat) (inst : Format)
    (i : Nat) : Bool :=
  ((fmtEntry formats i).getD []).get? k == some inst

/-- The backwards walk of `getFormatBoundary`:
`while (newFormats[startIndex] && newFormats[startIndex][index] === startFormat) startIndex--;`
starting at `startIndex = n`.  Returns the final value of `startIndex`, which
is `-1` when the walk runs off the front of the array (at index `-1` the
entry is `undefined`, so the loop always stops there). -/
def walkBack (formats : List (Option (List Format))) (k : Nat) (inst : Format) :
    Nat → Int
  | 0 => if holdsAtN formats k inst 0 then -1 else 0
  | n + 1 =>
    if holdsAtN formats k inst (n + 1) then walkBack formats k inst n
    else ((n + 1 : Nat) : Int)

/-- Fuel-driven implementation of the forwards walk of `getFormatBoundary`.
The loop can only advance while the entry at the current index exists, so
`formats.length + 1` units of fuel always suffice (see `walkFwd`). -/
def walkFwdAux (formats : List (Option (List Format))) (k : Nat) (inst : Format) :
    Nat → Nat → Nat
  | 0, i => i
  | fuel + 1, i =>
    if holdsAtN formats k inst i then walkFwdAux formats k inst fuel (i + 1)
    else i

/-- The forwards walk of `getFormatBoundary`:
`while (newFormats[endIndex] && newFormats[endIndex][index] === startFormat) endIndex++;`
starting at `endIndex = i`.  Returns the final value of `endIndex`. -/
def walkFwd (formats : List (Option (List Format))) (k : Nat) (inst : Format)
    (i : Nat) : Nat :=
  walkFwdAux formats k inst (formats.length + 1) i

/-- Embedding of `getFormatBoundary(value, format, startIndex = value.start,
endIndex = value.end)`.  The second source argument is an object used only
through `format.type`, embedded here directly as the target type string `t`.

`find(newFormats[startIndex], \x7btype: format.type\x7d)` returns the first format
instance of the target type at the start index, or `undefined` when the entry
itself is `undefined` or contains no such instance — both cases return the
null sentinel.  Otherwise `index` is the position of that instance within the
entry (`Array.prototype.indexOf`, strict equality), the walks run outward
(the end walk after first incrementing `endIndex` once past the original
end), and the edges are returned as a half-open range. -/
def getFormatBoundary (value : RichTextValue) (t : String)
    (startIndex : Nat := value.start) (endIndex : Nat := value.«end») :
    FormatBoundary :=
  let newFormats := value.formats
  match fmtEntry newFormats startIndex with
  | none => ⟨none, none⟩
  | some entry =>
    match entry.find? (fun f => f.ftype == t) with
    | none => ⟨none, none⟩
    | some startFormat =>
      let index := entry.indexOf startFormat
      ⟨some (walkBack newFormats index startFormat startIndex + 1),
       some ((walkFwd newFormats index startFormat (endIndex + 1) : Nat) : Int)⟩

/-- Whether the per-character format list at index `i` contains a format of
type `t` (an absent entry contains none). -/
def entryHasType (v : RichTextValue) (i : Nat) (t : String) : Bool :=
  ((fmtEntry v.formats i).getD []).any (fun f => f.ftype == t)

/-- Whether the character at index `i` carries the format instance `inst`
anywhere in its format list. -/
def carriesInst (v : RichTextValue) (i : Nat) (inst : Format) : Bool :=
  ((fmtEntry v.formats i).getD []).any (fun f => f == inst)

/-- A link format instance used in concrete examples. -/
def linkA : Format := ⟨"core/link", [("url", "https://a.example/")], 1⟩

/-- A bold format instance used in concrete examples. -/
def boldB : Format := ⟨"core/bold", [], 2⟩

/-- Example value for C1: caret at 1 inside the run `[0,3)` of characters all
carrying `linkA`, but character 0 carries it at stack position 1 while the
caret character carries it at position 0. -/
def exC1 : RichTextValue :=
  { text := "abc".toList
    formats := [some [boldB, linkA], some [linkA], some [linkA]]
    start := 1
    «end» := 1
    activeFormats := [] }

/-- Example value for the C1 witness: a uniform link run `[1,3)` at stack
position 0, flanked by an unformatted character, caret at 2. -/
def exC1w : RichTextValue :=
  { text := "abcd".toList
    formats := [none, some [linkA], some [linkA], some [boldB]]
    start := 2
    «end» := 2
    activeFormats := [] }

/-- Example value for the C2 counterexample: a uniform link run covering the
whole value, caret at 1. -/
def exC2 : RichTextValue :=
  { text := "abc".toList
    formats := [some [linkA], some [linkA], some [linkA]]
    start := 1
    «end» := 1
    activeFormats := [] }

/-- Example value for the C2 witness: a single link-formatted character. -/
def exC2w : RichTextValue :=
  { text := "a".toList
    formats := [some [linkA]]
    start := 0
    «end» := 0
    activeFormats := [] }

/-- Example value for the C5 witness: no link format at the caret. -/
def exC5 : RichTextValue :=
  { text := "ab".toList
    formats := [some [boldB], none]
    start := 0
    «end» := 0
    activeFormats := [] }

/-- Example value for the C6 witness: a single link-formatted character. -/
def exC6 : RichTextValue :=
  { text := "a".toList
    formats := [some [linkA]]
    start := 0
    «end» := 0
    activeFormats := [] }

/-- A second link format instance with the same type and attributes as
`linkA` but a different identity, as if constructed separately. -/
def linkA2 : Format := ⟨"core/link", [("url", "https://a.example/")], 7⟩

/-- Example value for the C7 witness: two adjacent link runs `[0,2)` and
`[2,4)` whose format instances have identical type and attributes but
distinct identities; caret at 1 inside the first run. -/
def exC7 : RichTextValue :=
  { text := "abcd".toList
    formats := [some [linkA], some [linkA], some [linkA2], some [linkA2]]
    start := 1
    «end» := 1
    activeFormats := [] }

/-- Example value for the C10 witness: the caret character carries `linkA` at
stack position 0, its right neighbour carries the identical instance at stack
position 1 — the walk must stop there and exclude it. -/
def exC10 : RichTextValue :=
  { text := "ab".toList
    formats := [some [linkA], some [boldB, linkA]]
    start := 0
    «end» := 0
    activeFormats := [] }

/-- The active link attributes `InlineLinkUI` receives: `url`, `type`, `id`
and `target`; an absent field models `undefined`. -/
structure ActiveAttributes where
  url : Option String := none
  type : Option String := none
  id : Option String := none
  target : Option String := none
deriving DecidableEq

/-- A link control value `\x7burl, type, id, opensInNewTab, text, title\x7d`; an
absent field models `undefined`. -/
structure LinkValue where
  url : Option String := none
  type : Option String := none
  id : Option String := none
  opensInNewTab : Option Bool := none
  text : Option String := none
  title : Option String := none
deriving DecidableEq

/-- JavaScript object spread `\x7b...a, ...b\x7d` over the link-value fields: a
field of `b`, when present, overrides the one of `a`. -/
def mergeLinkValue (a b : LinkValue) : LinkValue :=
  { url := b.url <|> a.url
    type := b.type <|> a.type
    id := b.id <|> a.id
    opensInNewTab := b.opensInNewTab <|> a.opensInNewTab
    text := b.text <|> a.text
    title := b.title <|> a.title }

/-- Modelled from the spec: `isCollapsed` of the rich-text library (not under
src/) — a collapsed selection is a caret, `start` equal to `end`. -/
def isCollapsed (v : RichTextValue) : Bool := v.start == v.«end»

/-- Modelled from the spec: `slice` of the rich-text library (not under
src/) — the sub-value over `[s, e)` of text and per-character formats. -/
def slice (v : RichTextValue) (s e : Nat) : RichTextValue :=
  { text := (v.text.drop s).take (e - s)
    formats := (v.formats.drop s).take (e - s)
    start := 0
    «end» := 0
    activeFormats := [] }

/-- Auxiliary scan for `stripHTML`; the flag records whether the scan is
inside a tag. -/
def stripHTMLAux : Bool → List Char → List Char
  | _, [] => []
  | true, c :: cs =>
    if c = '>' then stripHTMLAux false cs else stripHTMLAux true cs
  | false, c :: cs =>
    if c = '<' then stripHTMLAux true cs else c :: stripHTMLAux false cs

/-- Modelled from the spec: `stripHTML` (not under src/) — removes HTML tags
from the text, for display purposes only. -/
def stripHTML (l : List Char) : List Char := stripHTMLAux false l

/-- Whether the list begins with the pattern. -/
def beginsWith : List Char → List Char → Bool
  | _, [] => true
  | [], _ :: _ => false
  | c :: cs, p :: ps => c == p && beginsWith cs ps

/-- Index of the first occurrence of `pat`, if any — the JavaScript
`String.prototype.replace` behaviour with a string pattern: only the first
occurrence is replaced. -/
def firstOccurrence (pat : List Char) : List Char → Option Nat
  | [] => if beginsWith [] pat then some 0 else none
  | c :: cs =>
    if beginsWith (c :: cs) pat then some 0
    else (firstOccurrence pat cs).map (· + 1)

/-- A replacement argument of the rich-text `replace`: the source passes
either a plain string or a whole rich text value. -/
inductive Replacement
  | str (s : List Char)
  | val (w : RichTextValue)

/-- Modelled from the spec: `replace` of the rich-text library (not under
src/) — replaces the first occurrence of the pattern string; a string
replacement's new characters take over the format entry of the first
replaced character, an object replacement brings its own formats; the
selection collapses to the end of the replaced text (the spec's commit
"collapses the selection to the end of the inserted/replaced text"); with no
occurrence the value is unchanged. -/
def replace (v : RichTextValue) (pat : List Char) (r : Replacement) :
    RichTextValue :=
  match firstOccurrence pat v.text with
  | none => v
  | some off =>
    let rText := match r with
      | .str s => s
      | .val w => w.text
    let rFormats := match r with
      | .str s => List.replicate s.length (fmtEntry v.formats off)
      | .val w => w.formats
    { text := v.text.take off ++ rText ++ v.text.drop (off + pat.length)
      formats :=
        v.formats.take off ++ rFormats ++ v.formats.drop (off + pat.length)
      start := off + rText.length
      «end» := off + rText.length
      activeFormats := v.activeFormats }

/-- Auxiliary to `applyFormat`, carrying the current absolute index. -/
def applyFormatAux (fmt : Format) (s e : Nat) :
    Nat → List (Option (List Format)) → List (Option (List Format))
  | _, [] => []
  | i, entry :: rest =>
    (if s ≤ i ∧ i < e then
        some (((entry.getD []).filter (fun f => f.ftype != fmt.ftype)) ++ [fmt])
      else entry) :: applyFormatAux fmt s e (i + 1) rest

/-- Modelled from the spec: `applyFormat` of the rich-text library (not under
src/) — applies the format over `[s, e)`: within the range any existing
format of the same type is replaced and the new instance added to each
character's format list. -/
def applyFormat (v : RichTextValue) (fmt : Format) (s e : Nat) :
    RichTextValue :=
  { v with formats := applyFormatAux fmt s e 0 v.formats }

/-- Modelled from the spec: `create` of the rich-text library (not under
src/) — a fresh value with the given text and no formats. -/
def create (text : List Char) : RichTextValue :=
  { text := text
    formats := List.replicate text.length none
    start := 0
    «end» := 0
    activeFormats := [] }

/-- Modelled from the spec: `insert` of the rich-text library (not under
src/) — splices the inserted value over the current selection and collapses
the selection to the end of the inserted text. -/
def insert (v toInsert : RichTextValue) : RichTextValue :=
  { text := v.text.take v.start ++ toInsert.text ++ v.text.drop v.«end»
    formats :=
      v.formats.take v.start ++ toInsert.formats ++ v.formats.drop v.«end»
    start := v.start + toInsert.text.length
    «end» := v.start + toInsert.text.length
    activeFormats := v.activeFormats }

/-- Modelled from the spec: `removeFormat` as `removeLink` uses it (not under
src/; per the spec it "strips the link format from the full value"). -/
def removeFormat (v : RichTextValue) (t : String) : RichTextValue :=
  { v with
    formats :=
      v.formats.map (Option.map (List.filter (fun f => f.ftype != t))) }

/-- Modelled from the spec: `prependHTTP` (not under src/) — protocol
normalization: a non-empty URL without a scheme separator gets `http://`
prepended (`example.com` becomes `http://example.com`); a URL already
carrying a scheme separator, and the empty string (nothing to bear a
scheme), are returned unchanged. -/
def prependHTTP (s : String) : String :=
  if s = "" then s
  else if (firstOccurrence "://".toList s.toList).isSome then s
  else "http://" ++ s

/-- Modelled from the spec: `isValidHref` (not under src/) — the URL must
have a non-empty scheme-bearing form after protocol normalization: a scheme
separator, a non-empty scheme before it, and a non-empty remainder after
it. -/
def isValidHref (s : String) : Bool :=
  match firstOccurrence "://".toList s.toList with
  | some i => decide (0 < i) && decide (i + 3 < s.toList.length)
  | none => false

/-- JavaScript `a || b` on possibly-undefined strings: `undefined` and the
empty string are falsy. -/
def jsOr : Option String → Option String → Option String
  | some s, b => if s = "" then b else some s
  | none, b => b

/-- Modelled from the spec: `createLinkFormat` of the format library (not
under src/) — builds the link format from the merged settings: the `url`
attribute, `type` and `id` when present (and truthy), and for
`opensInNewWindow` the `target`/`rel` pair. -/
def createLinkFormat (url : Option String) (type : Option String)
    (id : Option String) (opensInNewWindow : Option Bool) : Format :=
  { ftype := "core/link"
    attrs :=
      (match url with | some u => [("url", u)] | none => [])
        ++ (match type with
            | some ty => if ty = "" then [] else [("type", ty)]
            | none => [])
        ++ (match id with
            | some i => if i = "" then [] else [("id", i)]
            | none => [])
        ++ (if opensInNewWindow.getD false then
              [("target", "_blank"), ("rel", "noreferrer noopener")]
            else [])
    instId := 0 }

/-- The spoken accessibility announcements of the controller. -/
inductive Announcement
  | linkRemoved
  | linkEdited
  | linkInserted
  | invalidWarning
deriving DecidableEq

/-- The props and state `onChangeLink` and `removeLink` read: the `isActive`
flag, the active link attributes, the rich text value, and the pending
(uncommitted) link settings held in component state (`nextLinkValue`). -/
structure InlineLinkState where
  isActive : Bool
  activeAttributes : ActiveAttributes
  value : RichTextValue
  nextLinkValue : Option LinkValue
deriving DecidableEq

/-- The selection range the component derives for the link text: the value's
own selection or — when collapsed — the boundary located by
`getFormatBoundary` (a null boundary makes `slice(value, null, null)`, which
is empty, modelled as the empty range at 0). -/
def componentTextRange (v : RichTextValue) : Nat × Nat :=
  if isCollapsed v then
    match getFormatBoundary v "core/link" with
    | ⟨some s, some e⟩ => (s.toNat, e.toNat)
    | _ => (0, 0)
  else (v.start, v.«end»)

/-- `richLinkTextValue`: the slice of the value over the component's text
range. -/
def richLinkTextValue (v : RichTextValue) : RichTextValue :=
  slice v (componentTextRange v).1 (componentTextRange v).2

/-- `text`: the sliced text content minus any HTML tags. -/
def componentText (v : RichTextValue) : String :=
  String.mk (stripHTML (richLinkTextValue v).text)

/-- `linkValue` as composed in the component: the active attributes and the
derived text, overridden by any pending settings. -/
def linkValueOf (st : InlineLinkState) : LinkValue :=
  mergeLinkValue
    { url := st.activeAttributes.url
      type := st.activeAttributes.type
      id := st.activeAttributes.id
      opensInNewTab := some (st.activeAttributes.target == some "_blank")
      text := some (componentText st.value) }
    (st.nextLinkValue.getD {})

/-- The observable outcome of one controller operation: the next pending
settings state, the value committed through `onChange` (if any), whether
`stopAddingLink` ran, and the announcements spoken. -/
structure ChangeResult where
  newNextLinkValue : Option LinkValue
  committed : Option RichTextValue
  stoppedAddingLink : Bool
  spoken : List Announcement
deriving DecidableEq

/-- The announcement `onChangeLink` speaks: an invalid (normalized) URL
warns — taking precedence — otherwise an active link announces an edit and a
new link an insertion. -/
def announceFor (isActive : Bool) (newUrl : Option String) : Announcement :=
  if !(isValidHref (newUrl.getD "")) then .invalidWarning
  else if isActive then .linkEdited
  else .linkInserted

/-- Embedding of `onChangeLink(nextValue)`: merges the input over the pending
settings; a setting-only toggle before any URL exists is stored as pending
and applied later; otherwise the link format is built from the merged
settings and either inserted as new formatted text at a collapsed caret with
no active format, or replaced over the identified text range preserving the
other formats; editing mode ends unless the change was a pure toggle, and
one announcement is spoken. -/
def onChangeLink (st : InlineLinkState) (input : LinkValue) : ChangeResult :=
  let text := componentText st.value
  let linkValue := linkValueOf st
  let nextValue := mergeLinkValue (st.nextLinkValue.getD {}) input
  let didToggleSetting :=
    (linkValue.opensInNewTab != nextValue.opensInNewTab) &&
      (linkValue.url == nextValue.url)
  let didToggleSettingForNewLink :=
    didToggleSetting && (nextValue.url == none)
  if didToggleSettingForNewLink then
    { newNextLinkValue := some nextValue
      committed := none
      stoppedAddingLink := false
      spoken := [] }
  else
    let newUrl := nextValue.url.map prependHTTP
    let linkFormat :=
      createLinkFormat newUrl nextValue.type nextValue.id
        nextValue.opensInNewTab
    let newText := jsOr (jsOr nextValue.text nextValue.title) newUrl
    let newTextS := newText.getD ""
    let committed :=
      if isCollapsed st.value && !st.isActive then
        insert st.value
          (applyFormat (create newTextS.toList) linkFormat 0
            newTextS.toList.length)
      else
        let nv1 := replace (richLinkTextValue st.value) text.toList
          (.str newTextS.toList)
        let nv2 := applyFormat nv1 linkFormat 0 newTextS.toList.length
        let nv3 := replace st.value text.toList (.val nv2)
        { nv3 with start := nv3.«end», activeFormats := [] }
    { newNextLinkValue := none
      committed := some committed
      stoppedAddingLink := !didToggleSetting
      spoken := [announceFor st.isActive newUrl] }

/-- Embedding of `removeLink()`: strips the link format from the full value,
commits it, exits editing mode, and speaks the removal announcement once. -/
def removeLink (st : InlineLinkState) : ChangeResult :=
  { newNextLinkValue := st.nextLinkValue
    committed := some (removeFormat st.value "core/link")
    stoppedAddingLink := true
    spoken := [.linkRemoved] }

/-- Whether the value carries no format of type `core/link` anywhere. -/
def hasNoLinkFormat (v : RichTextValue) : Bool :=
  v.formats.all
    (fun entry => (entry.getD []).all (fun f => f.ftype != "core/link"))

/-- Example value for the C9 witness: two characters, one bold format, no
link anywhere. -/
def exC9v : RichTextValue :=
  { text := "ab".toList
    formats := [some [boldB], none]
    start := 0
    «end» := 0
    activeFormats := [] }

/-- Example state for the C9 witness. -/
def exC9 : InlineLinkState :=
  { isActive := false
    activeAttributes := {}
    value := exC9v
    nextLinkValue := none }

/-- Example value for the C8 witness: a collapsed caret at 1 in unformatted
text. -/
def exC8v : RichTextValue :=
  { text := "xy".toList
    formats := [none, none]
    start := 1
    «end» := 1
    activeFormats := [] }

/-- Example state for the C4 witness: no committed URL, collapsed caret. -/
def exC4st : InlineLinkState :=
  { isActive := false
    activeAttributes := {}
    value := { text := "ab".toList
               formats := [none, none]
               start := 1
               «end» := 1
               activeFormats := [] }
    nextLinkValue := none }

/-- A link format instance with an empty URL, for the C3 counterexample. -/
def linkB2 : Format := ⟨"core/link", [("url", "")], 9⟩

/-- Example value for the C3 counterexample: text `old old`, the link on the
second `old` (range `[4,7)`), which is also the selection — so the boundary
text `old` occurs earlier in the value than at the boundary. -/
def exC3v : RichTextValue :=
  { text := "old old".toList
    formats :=
      [none, none, none, none, some [linkB2], some [linkB2], some [linkB2]]
    start := 4
    «end» := 7
    activeFormats := [] }

/-- Example state for the C3 counterexample: an active link whose current URL
is the empty string (whose normalization is not a valid href). -/
def exC3st : InlineLinkState :=
  { isActive := true
    activeAttributes :=
      { url := some ""
        type := some "post"
        id := some "1"
        target := some "_blank" }
    value := exC3v
    nextLinkValue := none }

/-- A link format instance for the C3 witness. -/
def linkC : Format := ⟨"core/link", [("url", "http://x")], 4⟩

/-- Example value for the C3 witness: text `zz old`, link and selection on
`old` (range `[3,6)`), which is the first occurrence of `old`. -/
def exC3wv : RichTextValue :=
  { text := "zz old".toList
    formats := [none, none, none, some [linkC], some [linkC], some [linkC]]
    start := 3
    «end» := 6
    activeFormats := [] }

end Gutenberg

namespace Gutenberg

/-- The walk condition can only hold at an index inside the formats array. -/
theorem holdsAtN_lt_length {formats : List (Option (List Format))} {k : Nat}
    {inst : Format} {i : Nat} (h : holdsAtN formats k inst i = true) :
    i < formats.length := by
  by_contra hge
  have hnone : formats.get? i = none := List.get?_eq_none.mpr (by omega)
  rw [holdsAtN, fmtEntry, hnone] at h
  simp at h

/-- The backwards walk never moves forwards. -/
theorem walkBack_le (formats : List (Option (List Format))) (k : Nat)
    (inst : Format) : ∀ n : Nat, walkBack formats k inst n ≤ (n : Int)
  | 0 => by unfold walkBack; split <;> omega
  | n + 1 => by
    unfold walkBack
    split
    · have := walkBack_le formats k inst n
      push_cast
      omega
    · push_cast
      omega

/-- The backwards walk never goes below `-1`. -/
theorem walkBack_ge (formats : List (Option (List Format))) (k : Nat)
    (inst : Format) : ∀ n : Nat, -1 ≤ walkBack formats k inst n
  | 0 => by unfold walkBack; split <;> omega
  | n + 1 => by
    unfold walkBack
    split
    · exact walkBack_ge formats k inst n
    · push_cast
      omega

/-- If the walk condition holds at the starting index, the backwards walk
takes at least one step. -/
theorem walkBack_lt_of_holds {formats : List (Option (List Format))} {k : Nat}
    {inst : Format} {n : Nat} (h : holdsAtN formats k inst n = true) :
    walkBack formats k inst n < (n : Int) := by
  cases n with
  | zero => rw [walkBack, h]; simp
  | succ m =>
    rw [walkBack, h]
    simp only [if_true]
    have := walkBack_le formats k inst m
    push_cast
    omega

/-- Every index strictly between the backwards walk's final position and its
starting position (inclusive) satisfies the walk condition. -/
theorem walkBack_covers (formats : List (Option (List Format))) (k : Nat)
    (inst : Format) :
    ∀ n j : Nat, walkBack formats k inst n < (j : Int) → j ≤ n →
      holdsAtN formats k inst j = true
  | 0, j => by
    intro hlt hle
    interval_cases j
    unfold walkBack at hlt
    split at hlt
    · assumption
    · omega
  | n + 1, j => by
    intro hlt hle
    unfold walkBack at hlt
    split at hlt
    · rcases Nat.lt_or_ge j (n + 1) with hj | hj
      · exact walkBack_covers formats k inst n j hlt (by omega)
      · have : j = n + 1 := by omega
        subst this
        assumption
    · omega

/-- The walk condition fails at the backwards walk's final position (when that
position is still inside the array; at `-1` the entry is `undefined`). -/
theorem walkBack_stops (formats : List (Option (List Format))) (k : Nat)
    (inst : Format) :
    ∀ n : Nat, 0 ≤ walkBack formats k inst n →
      holdsAtN formats k inst (walkBack formats k inst n).toNat = false
  | 0 => by
    intro h0
    unfold walkBack at h0 ⊢
    by_cases hc : holdsAtN formats k inst 0 = true
    · rw [if_pos hc] at h0
      omega
    · rw [if_neg hc] at h0 ⊢
      simp at hc
      simpa using hc
  | n + 1 => by
    intro h0
    unfold walkBack at h0 ⊢
    by_cases hc : holdsAtN formats k inst (n + 1) = true
    · rw [if_pos hc] at h0 ⊢
      exact walkBack_stops formats k inst n h0
    · rw [if_neg hc] at h0 ⊢
      have htn : (((n + 1 : Nat) : Int)).toNat = n + 1 := by omega
      rw [htn]
      simpa using hc

/-- Exact value of the backwards walk over a run: if the condition holds on
`[s, n]` and fails just left of `s` (or `s` is the array front), the walk
stops at `s - 1`. -/
theorem walkBack_run (formats : List (Option (List Format))) (k : Nat)
    (inst : Format) :
    ∀ n s : Nat, s ≤ n →
      (∀ j : Nat, s ≤ j → j ≤ n → holdsAtN formats k inst j = true) →
      (s = 0 ∨ holdsAtN formats k inst (s - 1) = false) →
      walkBack formats k inst n = (s : Int) - 1
  | 0, s => by
    intro hs hcov _
    have hs0 : s = 0 := by omega
    subst hs0
    rw [walkBack, hcov 0 (le_refl 0) (le_refl 0)]
    simp
  | n + 1, s => by
    intro hs hcov hleft
    rw [walkBack, hcov (n + 1) hs (le_refl _)]
    simp only [if_true]
    rcases Nat.lt_or_ge s (n + 1) with hlt | hge
    · exact walkBack_run formats k inst n s (by omega) (fun j h1 h2 => hcov j h1 (by omega)) hleft
    · have hseq : s = n + 1 := by omega
      subst hseq
      have hfail : holdsAtN formats k inst n = false := by
        rcases hleft with h | h
        · omega
        · simpa using h
      cases n with
      | zero => rw [walkBack, hfail]; simp
      | succ m => rw [walkBack, hfail]; simp

/-- The forwards walk never moves backwards. -/
theorem walkFwdAux_ge (formats : List (Option (List Format))) (k : Nat)
    (inst : Format) : ∀ fuel i : Nat, i ≤ walkFwdAux formats k inst fuel i
  | 0, i => le_refl i
  | fuel + 1, i => by
    unfold walkFwdAux
    split
    · have := walkFwdAux_ge formats k inst fuel (i + 1)
      omega
    · exact le_refl i

/-- Every index the forwards walk passes satisfies the walk condition. -/
theorem walkFwdAux_covers (formats : List (Option (List Format))) (k : Nat)
    (inst : Format) :
    ∀ fuel i j : Nat, i ≤ j → j < walkFwdAux formats k inst fuel i →
      holdsAtN formats k inst j = true
  | 0, i, j => by
    intro h1 h2
    rw [walkFwdAux] at h2
    omega
  | fuel + 1, i, j => by
    intro h1 h2
    unfold walkFwdAux at h2
    split at h2
    · rcases Nat.lt_or_ge i j with hij | hij
      · exact walkFwdAux_covers formats k inst fuel (i + 1) j (by omega) h2
      · have : j = i := by omega
        subst this
        assumption
    · omega

/-- With enough fuel, the walk condition fails at the forwards walk's final
position. -/
theorem walkFwdAux_stops (formats : List (Option (List Format))) (k : Nat)
    (inst : Format) :
    ∀ fuel i : Nat, formats.length < i + fuel →
      holdsAtN formats k inst (walkFwdAux formats k inst fuel i) = false
  | 0, i => by
    intro hfuel
    rw [walkFwdAux]
    by_contra hc
    have := holdsAtN_lt_length (Bool.of_not_eq_false hc)
    omega
  | fuel + 1, i => by
    intro hfuel
    unfold walkFwdAux
    split
    · exact walkFwdAux_stops formats k inst fuel (i + 1) (by omega)
    · rename_i hcond
      simpa using Bool.eq_false_iff.mpr hcond

/-- Exact value of the forwards walk over a run: if the condition holds on
`[i, e)` and fails at `e`, the walk stops at `e`. -/
theorem walkFwdAux_run (formats : List (Option (List Format))) (k : Nat)
    (inst : Format) :
    ∀ fuel i e : Nat, i ≤ e → e - i ≤ fuel →
      (∀ j : Nat, i ≤ j → j < e → holdsAtN formats k inst j = true) →
      holdsAtN formats k inst e = false →
      walkFwdAux formats k inst fuel i = e
  | 0, i, e => by
    intro h1 h2 _ _
    rw [walkFwdAux]
    omega
  | fuel + 1, i, e => by
    intro h1 h2 hcov hstop
    rcases Nat.lt_or_ge i e with hlt | hge
    · unfold walkFwdAux
      rw [hcov i (le_refl i) hlt]
      simp only [if_true]
      exact walkFwdAux_run formats k inst fuel (i + 1) e (by omega) (by omega)
        (fun j hj1 hj2 => hcov j (by omega) hj2) hstop
    · have hie : i = e := by omega
      subst hie
      unfold walkFwdAux
      rw [hstop]
      simp

/-- `walkFwd` never moves backwards. -/
theorem walkFwd_ge (formats : List (Option (List Format))) (k : Nat)
    (inst : Format) (i : Nat) : i ≤ walkFwd formats k inst i :=
  walkFwdAux_ge formats k inst _ i

/-- Every index `walkFwd` passes satisfies the walk condition. -/
theorem walkFwd_covers (formats : List (Option (List Format))) (k : Nat)
    (inst : Format) {i j : Nat} (h1 : i ≤ j)
    (h2 : j < walkFwd formats k inst i) : holdsAtN formats k inst j = true :=
  walkFwdAux_covers formats k inst _ i j h1 h2

/-- The walk condition fails at `walkFwd`'s final position. -/
theorem walkFwd_stops (formats : List (Option (List Format))) (k : Nat)
    (inst : Format) (i : Nat) :
    holdsAtN formats k inst (walkFwd formats k inst i) = false :=
  walkFwdAux_stops formats k inst _ i (by omega)

/-- Exact value of `walkFwd` over a run. -/
theorem walkFwd_run (formats : List (Option (List Format))) (k : Nat)
    (inst : Format) {i e : Nat} (h1 : i ≤ e)
    (hcov : ∀ j : Nat, i ≤ j → j < e → holdsAtN formats k inst j = true)
    (hstop : holdsAtN formats k inst e = false) :
    walkFwd formats k inst i = e := by
  apply walkFwdAux_run formats k inst _ i e h1 _ hcov hstop
  rcases Nat.lt_or_ge i e with hlt | hge
  · have : e - 1 < formats.length :=
      holdsAtN_lt_length (hcov (e - 1) (by omega) (by omega))
    omega
  · omega

/-- The walk condition holds wherever the entry exists and carries `inst` at
stack position `k`. -/
theorem holdsAtN_of_entry {formats : List (Option (List Format))} {i k : Nat}
    {l : List Format} {inst : Format}
    (hentry : fmtEntry formats i = some l) (hget : l.get? k = some inst) :
    holdsAtN formats k inst i = true := by
  rw [holdsAtN, hentry, Option.getD_some, hget]
  exact beq_self_eq_true _

/-- Conversely, a true walk condition yields the entry and the instance at
stack position `k`. -/
theorem entry_of_holdsAtN {formats : List (Option (List Format))} {i k : Nat}
    {inst : Format} (h : holdsAtN formats k inst i = true) :
    ∃ l, fmtEntry formats i = some l ∧ l.get? k = some inst := by
  rw [holdsAtN] at h
  rcases he : fmtEntry formats i with _ | l
  · rw [he] at h
    simp at h
  · rw [he, Option.getD_some] at h
    exact ⟨l, rfl, eq_of_beq h⟩

/-- `getFormatBoundary` on its success path, in terms of the two walks. -/
theorem getFormatBoundary_some {v : RichTextValue} {t : String} {si ei : Nat}
    {l : List Format} {inst : Format}
    (hentry : fmtEntry v.formats si = some l)
    (hfind : l.find? (fun f => f.ftype == t) = some inst) :
    getFormatBoundary v t si ei =
      ⟨some (walkBack v.formats (l.indexOf inst) inst si + 1),
       some ((walkFwd v.formats (l.indexOf inst) inst (ei + 1) : Nat) : Int)⟩ := by
  simp only [getFormatBoundary, hentry, hfind]

/-- Any non-null boundary arises from the success path of
`getFormatBoundary`. -/
theorem getFormatBoundary_some_inv {v : RichTextValue} {t : String}
    {si ei : Nat} {s e : Int}
    (h : getFormatBoundary v t si ei = ⟨some s, some e⟩) :
    ∃ l inst, fmtEntry v.formats si = some l ∧
      l.find? (fun f => f.ftype == t) = some inst ∧
      s = walkBack v.formats (l.indexOf inst) inst si + 1 ∧
      e = ((walkFwd v.formats (l.indexOf inst) inst (ei + 1) : Nat) : Int) := by
  rcases he : fmtEntry v.formats si with _ | l
  · simp [getFormatBoundary, he] at h
  · rcases hf : l.find? (fun f => f.ftype == t) with _ | inst
    · simp [getFormatBoundary, he, hf] at h
    · rw [getFormatBoundary_some he hf] at h
      simp only [FormatBoundary.mk.injEq, Option.some.injEq] at h
      exact ⟨l, inst, rfl, hf, h.1.symm, h.2.symm⟩

/-- On the success path the walk condition holds at the located instance's
own position. -/
theorem holdsAtN_at_found {formats : List (Option (List Format))} {si : Nat}
    {l : List Format} {inst : Format} {t : String}
    (hentry : fmtEntry formats si = some l)
    (hfind : l.find? (fun f => f.ftype == t) = some inst) :
    holdsAtN formats (l.indexOf inst) inst si = true :=
  holdsAtN_of_entry hentry
    (List.indexOf_get? (List.mem_of_find?_eq_some hfind))

/-- C5: for every value and target format type, if no format instance of the
target type is present in the per-character format list at the initial start
index, `getFormatBoundary` returns the null sentinel
`\x7bstart: null, end: null\x7d` (and, being a total function, does not throw). -/
theorem getFormatBoundary_null_sentinel (v : RichTextValue) (t : String)
    (h : entryHasType v v.start t = false) :
    getFormatBoundary v t = ⟨none, none⟩ := by
  rcases he : fmtEntry v.formats v.start with _ | l
  · simp [getFormatBoundary, he]
  · have hfind : l.find? (fun f => f.ftype == t) = none := by
      rw [List.find?_eq_none]
      intro x hx
      rw [entryHasType, he] at h
      simp only [Option.getD_some, List.any_eq_false] at h
      exact h x hx
    simp [getFormatBoundary, he, hfind]

/-- C5 witness: a concrete value with no link format at the caret. -/
theorem getFormatBoundary_null_sentinel_witness :
    entryHasType exC5 exC5.start "core/link" = false ∧
      getFormatBoundary exC5 "core/link" = ⟨none, none⟩ :=
  ⟨by decide, getFormatBoundary_null_sentinel exC5 "core/link" (by decide)⟩

/-- C6: whenever the selection satisfies `start <= end` and
`getFormatBoundary` (with the value's own selection as the scanned position)
finds a boundary, the returned range contains or equals the selection:
`start' <= start <= end <= end'`. -/
theorem getFormatBoundary_contains_selection (v : RichTextValue) (t : String)
    (s e : Int) (hse : v.start ≤ v.«end»)
    (h : getFormatBoundary v t = ⟨some s, some e⟩) :
    s ≤ (v.start : Int) ∧ (v.start : Int) ≤ (v.«end» : Int) ∧
      (v.«end» : Int) ≤ e := by
  obtain ⟨l, inst, hentry, hfind, hs, he⟩ := getFormatBoundary_some_inv h
  have hholds := holdsAtN_at_found hentry hfind
  have hlt := walkBack_lt_of_holds hholds
  have hge := walkFwd_ge v.formats (l.indexOf inst) inst (v.«end» + 1)
  refine ⟨by omega, by exact_mod_cast hse, ?_⟩
  rw [he]
  omega

/-- C6 witness: a concrete single-character link value. -/
theorem getFormatBoundary_contains_selection_witness :
    (0 : Int) ≤ (exC6.start : Int) ∧ (exC6.start : Int) ≤ (exC6.«end» : Int) ∧
      (exC6.«end» : Int) ≤ 1 :=
  getFormatBoundary_contains_selection exC6 "core/link" 0 1 (by decide)
    (by decide)

/-- Scanning from inside a run that is maximal at stack position `k` returns
exactly that run.  Shared workhorse for the run-shaped claims. -/
theorem getFormatBoundary_of_run {v : RichTextValue} {t : String}
    {inst : Format} {l : List Format} {k s e p : Nat}
    (hentry : fmtEntry v.formats p = some l)
    (hfind : l.find? (fun f => f.ftype == t) = some inst)
    (hidx : l.indexOf inst = k)
    (hsp : s ≤ p) (hpe : p < e)
    (hrun : ∀ i, i < e → s ≤ i → holdsAtN v.formats k inst i = true)
    (hleft : s = 0 ∨ holdsAtN v.formats k inst (s - 1) = false)
    (hright : holdsAtN v.formats k inst e = false) :
    getFormatBoundary v t p p = ⟨some (s : Int), some (e : Int)⟩ := by
  rw [getFormatBoundary_some hentry hfind, hidx]
  have hwb : walkBack v.formats k inst p = (s : Int) - 1 :=
    walkBack_run v.formats k inst p s hsp
      (fun j h1 h2 => hrun j (by omega) h1) hleft
  have hwf : walkFwd v.formats k inst (p + 1) = e :=
    walkFwd_run v.formats k inst (by omega)
      (fun j h1 h2 => hrun j h2 (by omega)) hright
  rw [hwb, hwf]
  have hcast : (s : Int) - 1 + 1 = (s : Int) := by omega
  rw [hcast]

/-- C1 (amended): if the caret (a collapsed selection) sits strictly inside a
contiguous run of characters that all carry the same link format instance at
one fixed stack position `k` of their format lists — the run maximal at that
position, the instance being the first format of type `core/link` in the
caret character's list, at position `k` there — then `getFormatBoundary` with
format type `core/link` returns exactly that run as `[start, end)`. -/
theorem getFormatBoundary_exact_run (v : RichTextValue) (inst : Format)
    (l : List Format) (k s e : Nat)
    (hcaret : v.start = v.«end»)
    (hentry : fmtEntry v.formats v.start = some l)
    (hfind : l.find? (fun f => f.ftype == "core/link") = some inst)
    (hidx : l.indexOf inst = k)
    (hsp : s ≤ v.start) (hpe : v.start < e)
    (hrun : ∀ i, i < e → s ≤ i → holdsAtN v.formats k inst i = true)
    (hleft : s = 0 ∨ holdsAtN v.formats k inst (s - 1) = false)
    (hright : holdsAtN v.formats k inst e = false) :
    getFormatBoundary v "core/link" = ⟨some (s : Int), some (e : Int)⟩ := by
  rw [← hcaret]
  exact getFormatBoundary_of_run hentry hfind hidx hsp hpe hrun hleft hright

/-- C1 witness: caret at 2 strictly inside the uniform position-0 run
`[1,3)` of `exC1w`. -/
theorem getFormatBoundary_exact_run_witness :
    getFormatBoundary exC1w "core/link" = ⟨some 1, some 3⟩ :=
  getFormatBoundary_exact_run exC1w linkA [linkA] 0 1 3 (by decide) (by decide)
    (by decide) (by decide) (by decide) (by decide) (by decide) (by decide)
    (by decide)

/-- C1 counterexample: in `exC1` the caret (collapsed at 1) sits strictly
inside the maximal contiguous run `[0,3)` of characters all carrying the one
instance `linkA`, yet `getFormatBoundary` returns `[1,3)`, not that run:
character 0 carries the instance at stack position 1 while the walk compares
at the caret character's position 0. -/
theorem getFormatBoundary_exact_run_counterexample :
    (∀ i, i < 3 → carriesInst exC1 i linkA = true) ∧
      carriesInst exC1 3 linkA = false ∧
      exC1.start = 1 ∧ exC1.«end» = 1 ∧
      getFormatBoundary exC1 "core/link" = ⟨some 1, some 3⟩ ∧
      getFormatBoundary exC1 "core/link" ≠ ⟨some 0, some 3⟩ := by
  decide

/-- C2 (amended): rescanning its own output does not reproduce it.  When
`getFormatBoundary` finds `[s, e)` and is called again with that `start` and
`end`, the result is again a non-null boundary `[s2, e2)` with `s2 ≤ s` — but
`e2 ≥ e + 1`, because the scan first increments the given end index past the
previous (already exclusive) end; the pair returned is therefore never equal
to the input pair, refuting `Boundary(Boundary(v)) == Boundary(v)`. -/
theorem getFormatBoundary_rescan (v : RichTextValue) (t : String) (s e : Int)
    (h : getFormatBoundary v t = ⟨some s, some e⟩) :
    ∃ s2 e2 : Int,
      getFormatBoundary v t s.toNat e.toNat = ⟨some s2, some e2⟩ ∧
      s2 ≤ s ∧ e + 1 ≤ e2 ∧
      getFormatBoundary v t s.toNat e.toNat ≠ ⟨some s, some e⟩ := by
  obtain ⟨l, inst, hentry, hfind, hs, he⟩ := getFormatBoundary_some_inv h
  have hholds0 := holdsAtN_at_found hentry hfind
  have hwb_lt := walkBack_lt_of_holds hholds0
  have hwb_ge := walkBack_ge v.formats (l.indexOf inst) inst v.start
  have hsv : s.toNat ≤ v.start := by omega
  have hholds_s :
      holdsAtN v.formats (l.indexOf inst) inst s.toNat = true := by
    apply walkBack_covers v.formats (l.indexOf inst) inst v.start s.toNat _ hsv
    omega
  obtain ⟨l2, hentry2, hget2⟩ := entry_of_holdsAtN hholds_s
  have hmem2 : inst ∈ l2 := List.get?_mem hget2
  have hinstT := List.find?_some hfind
  have hfind2 :
      ∃ inst2, l2.find? (fun f => f.ftype == t) = some inst2 :=
    Option.isSome_iff_exists.mp
      (List.find?_isSome.mpr ⟨inst, hmem2, hinstT⟩)
  obtain ⟨inst2, hfind2⟩ := hfind2
  rw [getFormatBoundary_some hentry2 hfind2]
  have hholds2 := holdsAtN_at_found hentry2 hfind2
  have hwb2_lt := walkBack_lt_of_holds hholds2
  have hwb2_ge := walkBack_ge v.formats (l2.indexOf inst2) inst2 s.toNat
  have hwf2_ge := walkFwd_ge v.formats (l2.indexOf inst2) inst2 (e.toNat + 1)
  have he_nonneg : (0 : Int) ≤ e := by rw [he]; omega
  refine ⟨_, _, rfl, by omega, by omega, ?_⟩
  intro hcontr
  simp only [FormatBoundary.mk.injEq, Option.some.injEq] at hcontr
  omega

/-- C2 witness: on a single-character link value the boundary is `[0,1)`, and
rescanning it yields a strictly larger end. -/
theorem getFormatBoundary_rescan_witness :
    ∃ s2 e2 : Int,
      getFormatBoundary exC2w "core/link" (Int.toNat 0) (Int.toNat 1) =
        ⟨some s2, some e2⟩ ∧
      s2 ≤ 0 ∧ 1 + 1 ≤ e2 ∧
      getFormatBoundary exC2w "core/link" (Int.toNat 0) (Int.toNat 1) ≠
        ⟨some 0, some 1⟩ :=
  getFormatBoundary_rescan exC2w "core/link" 0 1 (by decide)

/-- C2 counterexample: on `exC2` the boundary of the caret is `[0,3)`, but
calling `getFormatBoundary` again with start `0` and end `3` returns
`[0,4)` — not the same pair, so the function is not idempotent on its own
output. -/
theorem getFormatBoundary_rescan_counterexample :
    getFormatBoundary exC2 "core/link" = ⟨some 0, some 3⟩ ∧
      getFormatBoundary exC2 "core/link" (Int.toNat 0) (Int.toNat 3) =
        ⟨some 0, some 4⟩ ∧
      getFormatBoundary exC2 "core/link" (Int.toNat 0) (Int.toNat 3) ≠
        ⟨some 0, some 3⟩ := by
  decide

/-- C7: for a caret inside one of two adjacent link runs whose format
instances `A` and `B` are distinct instances with identical type and
attributes, `getFormatBoundary` returns only the caret's run `[s, m)` and
does not extend across the instance boundary at `m`, where the adjacent run
carrying `B` begins: instances are compared by identity, not structural
equality. -/
theorem getFormatBoundary_adjacent_instances (v : RichTextValue)
    (A B : Format) (l : List Format) (k s m : Nat)
    (hAB : A ≠ B) (hBt : B.ftype = "core/link") (hattrs : A.attrs = B.attrs)
    (hcaret : v.start = v.«end»)
    (hentry : fmtEntry v.formats v.start = some l)
    (hfind : l.find? (fun f => f.ftype == "core/link") = some A)
    (hidx : l.indexOf A = k)
    (hsp : s ≤ v.start) (hpm : v.start < m)
    (hrun1 : ∀ i, i < m → s ≤ i → holdsAtN v.formats k A i = true)
    (hleft : s = 0 ∨ holdsAtN v.formats k A (s - 1) = false)
    (hrun2 : holdsAtN v.formats k B m = true) :
    getFormatBoundary v "core/link" = ⟨some (s : Int), some (m : Int)⟩ := by
  have hstop : holdsAtN v.formats k A m = false := by
    obtain ⟨l2, he2, hg2⟩ := entry_of_holdsAtN hrun2
    rw [holdsAtN, he2, Option.getD_some, hg2]
    rw [beq_eq_false_iff_ne]
    intro hc
    exact hAB (Option.some.inj hc).symm
  rw [← hcaret]
  exact getFormatBoundary_of_run hentry hfind hidx hsp hpm hrun1 hleft hstop

/-- C7 witness: `exC7` has the attribute-identical but distinct instances
`linkA` on `[0,2)` and `linkA2` on `[2,4)`; the caret at 1 yields `[0,2)`. -/
theorem getFormatBoundary_adjacent_instances_witness :
    getFormatBoundary exC7 "core/link" = ⟨some 0, some 2⟩ :=
  getFormatBoundary_adjacent_instances exC7 linkA linkA2 [linkA] 0 0 2
    (by decide) (by decide) (by decide) (by decide) (by decide) (by decide)
    (by decide) (by decide) (by decide) (by decide) (by decide) (by decide)

/-- C10 (implicit): a non-null boundary is computed by walking at the fixed
stack position `k` at which the located instance sits in the caret
character's format list: the walk stops at the first index on either side
whose entry does not carry that very instance at position `k` (so a
character carrying the identical instance at a different position terminates
the walk and is excluded), and — for a collapsed selection, the way the
component invokes the scan — every character inside the returned range
carries the instance at position `k`. -/
theorem getFormatBoundary_fixed_stack_position (v : RichTextValue)
    (t : String) (s e : Int)
    (h : getFormatBoundary v t = ⟨some s, some e⟩) :
    ∃ l inst, fmtEntry v.formats v.start = some l ∧
      l.find? (fun f => f.ftype == t) = some inst ∧
      ∃ a b : Nat, s = (a : Int) ∧ e = (b : Int) ∧
        (a = 0 ∨ holdsAtN v.formats (l.indexOf inst) inst (a - 1) = false) ∧
        holdsAtN v.formats (l.indexOf inst) inst b = false ∧
        (v.start = v.«end» →
          ∀ i, a ≤ i → i < b →
            holdsAtN v.formats (l.indexOf inst) inst i = true) := by
  obtain ⟨l, inst, hentry, hfind, hs, he⟩ := getFormatBoundary_some_inv h
  have hholds := holdsAtN_at_found hentry hfind
  have hwb_lt := walkBack_lt_of_holds hholds
  have hwb_ge := walkBack_ge v.formats (l.indexOf inst) inst v.start
  refine ⟨l, inst, hentry, hfind,
    (walkBack v.formats (l.indexOf inst) inst v.start + 1).toNat,
    walkFwd v.formats (l.indexOf inst) inst (v.«end» + 1),
    by omega, he, ?_, walkFwd_stops v.formats (l.indexOf inst) inst _, ?_⟩
  · rcases lt_or_le (walkBack v.formats (l.indexOf inst) inst v.start) 0
      with hneg | hpos
    · left
      omega
    · right
      have hshift :
          (walkBack v.formats (l.indexOf inst) inst v.start + 1).toNat - 1 =
            (walkBack v.formats (l.indexOf inst) inst v.start).toNat := by
        omega
      rw [hshift]
      exact walkBack_stops v.formats (l.indexOf inst) inst v.start hpos
  · intro hcol i h1 h2
    rcases le_or_lt i v.start with hle | hgt
    · exact walkBack_covers v.formats (l.indexOf inst) inst v.start i
        (by omega) hle
    · exact walkFwd_covers v.formats (l.indexOf inst) inst
        (by omega) h2

/-- C10 witness: in `exC10` the right neighbour of the caret carries the
identical instance at a different stack position and is excluded. -/
theorem getFormatBoundary_fixed_stack_position_witness :
    ∃ l inst, fmtEntry exC10.formats exC10.start = some l ∧
      l.find? (fun f => f.ftype == "core/link") = some inst ∧
      ∃ a b : Nat, (0 : Int) = (a : Int) ∧ (1 : Int) = (b : Int) ∧
        (a = 0 ∨ holdsAtN exC10.formats (l.indexOf inst) inst (a - 1) = false) ∧
        holdsAtN exC10.formats (l.indexOf inst) inst b = false ∧
        (exC10.start = exC10.«end» →
          ∀ i, a ≤ i → i < b →
            holdsAtN exC10.formats (l.indexOf inst) inst i = true) :=
  getFormatBoundary_fixed_stack_position exC10 "core/link" 0 1 (by decide)

/-- Filtering out a format type that occurs nowhere leaves the per-character
format lists unchanged. -/
theorem formats_filter_eq_self (t : String) :
    ∀ fs : List (Option (List Format)),
      (∀ entry ∈ fs, (entry.getD []).all (fun f => f.ftype != t) = true) →
      fs.map (Option.map (List.filter (fun f => f.ftype != t))) = fs := by
  intro fs
  induction fs with
  | nil => intro _; rfl
  | cons a as ih =>
    intro hall
    simp only [List.map_cons, List.cons.injEq]
    constructor
    · cases a with
      | none => rfl
      | some la =>
        have hla := hall (some la) (by simp)
        simp only [Option.getD_some] at hla
        simp only [Option.map_some']
        rw [List.filter_eq_self.mpr (by simpa using List.all_eq_true.mp hla)]
    · exact ih (fun entry hm => hall entry (by simp [hm]))

/-- C9: `removeLink` never fails: for every state it commits the value with
the `core/link` format stripped from the full value, exits editing mode, and
speaks the removal announcement exactly once; on a value containing no link
format the committed value is structurally the unchanged value — a no-op,
not an error. -/
theorem removeLink_total (st : InlineLinkState) :
    (removeLink st).committed = some (removeFormat st.value "core/link") ∧
    (removeLink st).stoppedAddingLink = true ∧
    (removeLink st).spoken = [Announcement.linkRemoved] ∧
    (hasNoLinkFormat st.value = true →
      removeFormat st.value "core/link" = st.value) := by
  refine ⟨rfl, rfl, rfl, ?_⟩
  intro h
  rw [removeFormat]
  rw [formats_filter_eq_self "core/link" st.value.formats
    (List.all_eq_true.mp h)]

/-- C9 witness: removing the link on a concrete link-free value commits the
value unchanged while the removal announcement is spoken exactly once. -/
theorem removeLink_total_witness :
    (removeLink exC9).committed = some (removeFormat exC9.value "core/link") ∧
    (removeLink exC9).stoppedAddingLink = true ∧
    (removeLink exC9).spoken = [Announcement.linkRemoved] ∧
    removeFormat exC9.value "core/link" = exC9.value := by
  have h := removeLink_total exC9
  exact ⟨h.1, h.2.1, h.2.2.1, h.2.2.2 (by decide)⟩

/-- `applyFormatAux` over an in-range replicated block formats every
character with the filtered entry plus the new instance. -/
theorem applyFormatAux_replicate (fmt : Format) (e : Nat)
    (x : Option (List Format)) :
    ∀ n b : Nat, b + n ≤ e →
      applyFormatAux fmt 0 e b (List.replicate n x) =
        List.replicate n
          (some (((x.getD []).filter (fun f => f.ftype != fmt.ftype)) ++ [fmt]))
  | 0, b => by
    intro _
    rfl
  | n + 1, b => by
    intro hbe
    rw [List.replicate_succ]
    show (if 0 ≤ b ∧ b < e then _ else x) :: applyFormatAux fmt 0 e (b + 1)
        (List.replicate n x) = _
    rw [if_pos ⟨Nat.zero_le b, by omega⟩]
    rw [applyFormatAux_replicate fmt e x n (b + 1) (by omega)]
    rw [List.replicate_succ]

/-- Reading the formats of an inserted value inside the inserted range. -/
theorem insert_formats_get (v toInsert : RichTextValue) (j : Nat)
    (hwf : v.start ≤ v.formats.length) (hj : j < toInsert.formats.length) :
    (insert v toInsert).formats.get? (v.start + j) =
      toInsert.formats.get? j := by
  have hlen : (v.formats.take v.start).length = v.start := by
    rw [List.length_take]
    omega
  show (v.formats.take v.start ++ toInsert.formats ++
      v.formats.drop v.«end»).get? (v.start + j) = _
  rw [List.append_assoc]
  rw [List.get?_append_right (by rw [hlen]; omega)]
  rw [hlen]
  have hidx : v.start + j - v.start = j := by omega
  rw [hidx]
  exact List.get?_append hj

/-- C8: from a collapsed caret with no active link and no pending settings,
submitting the URL `example.com` with no text normalizes it to
`http://example.com`, inserts at the caret new formatted text whose display
text and link target both equal the normalized URL, and announces the
insertion (the invalid-URL warning, which takes precedence, is not spoken:
the normalized URL is valid). -/
theorem onChangeLink_insert_new_link (v : RichTextValue)
    (hcol : v.start = v.«end») (hwf : v.start ≤ v.formats.length) :
    prependHTTP "example.com" = "http://example.com" ∧
    (onChangeLink ⟨false, {}, v, none⟩ { url := some "example.com" }).spoken =
      [Announcement.linkInserted] ∧
    (onChangeLink ⟨false, {}, v, none⟩
      { url := some "example.com" }).stoppedAddingLink = true ∧
    (onChangeLink ⟨false, {}, v, none⟩
      { url := some "example.com" }).newNextLinkValue = none ∧
    ∃ v2,
      (onChangeLink ⟨false, {}, v, none⟩
        { url := some "example.com" }).committed = some v2 ∧
      v2.text = v.text.take v.start ++ "http://example.com".toList ++
        v.text.drop v.start ∧
      (∀ j, j < 18 →
        fmtEntry v2.formats (v.start + j) =
          some [createLinkFormat (some "http://example.com") none none none]) ∧
      ("url", "http://example.com") ∈
        (createLinkFormat (some "http://example.com") none none none).attrs := by
  have hcollapsed : isCollapsed v = true := by
    rw [isCollapsed, hcol]
    exact beq_self_eq_true _
  have key : onChangeLink ⟨false, {}, v, none⟩ { url := some "example.com" } =
      { newNextLinkValue := none
        committed := some (insert v (applyFormat
          (create "http://example.com".toList)
          (createLinkFormat (some "http://example.com") none none none) 0
          "http://example.com".toList.length))
        stoppedAddingLink := true
        spoken := [Announcement.linkInserted] } := by
    simp only [onChangeLink, linkValueOf, mergeLinkValue, hcollapsed]
    rfl
  have hto : (applyFormat (create "http://example.com".toList)
      (createLinkFormat (some "http://example.com") none none none) 0
      "http://example.com".toList.length).formats =
      List.replicate 18
        (some [createLinkFormat (some "http://example.com") none none none]) := by
    show applyFormatAux
      (createLinkFormat (some "http://example.com") none none none) 0 18 0
      (List.replicate 18 none) = _
    rw [applyFormatAux_replicate _ 18 none 18 0 (by omega)]
    rfl
  refine ⟨by decide, by rw [key], by rw [key], by rw [key], ?_⟩
  refine ⟨_, by rw [key], ?_, ?_, by decide⟩
  · show v.text.take v.start ++ "http://example.com".toList ++
      v.text.drop v.«end» = _
    rw [hcol]
  · intro j hj
    rw [fmtEntry]
    rw [insert_formats_get v _ j hwf
      (by rw [hto, List.length_replicate]; omega)]
    rw [hto]
    rw [List.get?_eq_getElem?]
    rw [List.getElem?_replicate]
    rw [if_pos hj]
    rfl

/-- C8 witness: the insertion scenario at a concrete caret position. -/
theorem onChangeLink_insert_new_link_witness :
    prependHTTP "example.com" = "http://example.com" ∧
    (onChangeLink ⟨false, {}, exC8v, none⟩ { url := some "example.com" }).spoken =
      [Announcement.linkInserted] ∧
    (onChangeLink ⟨false, {}, exC8v, none⟩
      { url := some "example.com" }).stoppedAddingLink = true ∧
    (onChangeLink ⟨false, {}, exC8v, none⟩
      { url := some "example.com" }).newNextLinkValue = none ∧
    ∃ v2,
      (onChangeLink ⟨false, {}, exC8v, none⟩
        { url := some "example.com" }).committed = some v2 ∧
      v2.text = exC8v.text.take exC8v.start ++ "http://example.com".toList ++
        exC8v.text.drop exC8v.start ∧
      (∀ j, j < 18 →
        fmtEntry v2.formats (exC8v.start + j) =
          some [createLinkFormat (some "http://example.com") none none none]) ∧
      ("url", "http://example.com") ∈
        (createLinkFormat (some "http://example.com") none none none).attrs :=
  onChangeLink_insert_new_link exC8v (by decide) (by decide)

/-- Normalization never empties a non-empty URL. -/
theorem prependHTTP_length_pos (u : String) (hu : u ≠ "") :
    0 < (prependHTTP u).toList.length := by
  rw [prependHTTP, if_neg hu]
  split
  · cases u with
    | mk data =>
      cases data with
      | nil => exact absurd rfl hu
      | cons c cs => simp [String.toList]
  · cases u with
    | mk data =>
      show 0 < ("http://" ++ String.mk data).data.length
      rw [String.data_append]
      simp

/-- C4: with no committed URL (the active `url` is `undefined`), an
`onChangeLink` carrying only the `opensInNewTab` toggle does not commit a
value, does not exit editing mode, and stores the merged result as the
pending settings; a subsequent `onChangeLink` that submits a URL commits a
link value whose format carries the previously toggled flag
(`target = _blank`), after which the pending settings are cleared. -/
theorem onChangeLink_pending_toggle_flow (st : InlineLinkState) (u : String)
    (hactive : st.isActive = false)
    (hurl : st.activeAttributes.url = none)
    (htarget : st.activeAttributes.target = none)
    (hpending : st.nextLinkValue = none)
    (hcol : st.value.start = st.value.«end»)
    (hwf : st.value.start ≤ st.value.formats.length)
    (hu : u ≠ "") :
    (onChangeLink st { opensInNewTab := some true }).committed = none ∧
    (onChangeLink st { opensInNewTab := some true }).stoppedAddingLink =
      false ∧
    (onChangeLink st { opensInNewTab := some true }).newNextLinkValue =
      some { opensInNewTab := some true } ∧
    (onChangeLink
      { st with nextLinkValue :=
          (onChangeLink st { opensInNewTab := some true }).newNextLinkValue }
      { url := some u }).newNextLinkValue = none ∧
    ∃ v2 l f,
      (onChangeLink
        { st with nextLinkValue :=
            (onChangeLink st { opensInNewTab := some true }).newNextLinkValue }
        { url := some u }).committed = some v2 ∧
      fmtEntry v2.formats st.value.start = some l ∧ f ∈ l ∧
      ("target", "_blank") ∈ f.attrs := by
  obtain ⟨ia, aa, v, pend⟩ := st
  obtain ⟨au, aty, ai, atg⟩ := aa
  have hia : ia = false := hactive
  have hau : au = none := hurl
  have hatg : atg = none := htarget
  have hpend : pend = none := hpending
  subst hia hau hatg hpend
  have hcol2 : v.start = v.«end» := hcol
  have hwf2 : v.start ≤ v.formats.length := hwf
  have hcollapsed : isCollapsed v = true := by
    rw [isCollapsed, hcol2]
    exact beq_self_eq_true _
  have key1 : onChangeLink ⟨false, ⟨none, aty, ai, none⟩, v, none⟩
      { opensInNewTab := some true } =
      { newNextLinkValue := some { opensInNewTab := some true }
        committed := none
        stoppedAddingLink := false
        spoken := [] } := rfl
  have key2 : onChangeLink
      ⟨false, ⟨none, aty, ai, none⟩, v, some { opensInNewTab := some true }⟩
      { url := some u } =
      { newNextLinkValue := none
        committed := some (insert v (applyFormat
          (create (prependHTTP u).toList)
          (createLinkFormat (some (prependHTTP u)) none none (some true)) 0
          (prependHTTP u).toList.length))
        stoppedAddingLink := true
        spoken := [announceFor false (some (prependHTTP u))] } := by
    simp only [onChangeLink, linkValueOf, mergeLinkValue, hcollapsed]
    rfl
  have hlen : 0 < (prependHTTP u).toList.length := prependHTTP_length_pos u hu
  have htoIns : (applyFormat (create (prependHTTP u).toList)
      (createLinkFormat (some (prependHTTP u)) none none (some true)) 0
      (prependHTTP u).toList.length).formats =
      List.replicate (prependHTTP u).toList.length
        (some [createLinkFormat (some (prependHTTP u)) none none
          (some true)]) := by
    show applyFormatAux
      (createLinkFormat (some (prependHTTP u)) none none (some true)) 0
      (prependHTTP u).toList.length 0
      (List.replicate (prependHTTP u).toList.length none) = _
    rw [applyFormatAux_replicate _ _ none _ 0 (by omega)]
    rfl
  refine ⟨by simp only [key1], by simp only [key1], by simp only [key1],
    by simp only [key1, key2], ?_⟩
  refine ⟨insert v (applyFormat
      (create (prependHTTP u).toList)
      (createLinkFormat (some (prependHTTP u)) none none (some true)) 0
      (prependHTTP u).toList.length),
    [createLinkFormat (some (prependHTTP u)) none none (some true)],
    createLinkFormat (some (prependHTTP u)) none none (some true),
    by simp only [key1, key2], ?_, ?_, ?_⟩
  · rw [fmtEntry]
    have hg := insert_formats_get v (applyFormat
      (create (prependHTTP u).toList)
      (createLinkFormat (some (prependHTTP u)) none none (some true)) 0
      (prependHTTP u).toList.length) 0 hwf2
      (by rw [htoIns, List.length_replicate]; omega)
    rw [Nat.add_zero] at hg
    show ((insert v _).formats.get? v.start).bind id = _
    rw [hg]
    rw [htoIns]
    rw [List.get?_eq_getElem?]
    rw [List.getElem?_replicate]
    rw [if_pos hlen]
    rfl
  · exact List.mem_singleton.mpr rfl
  · simp [createLinkFormat]

/-- C4 witness: the two-step flow at a concrete state with URL
`example.com`. -/
theorem onChangeLink_pending_toggle_flow_witness :
    (onChangeLink exC4st { opensInNewTab := some true }).committed = none ∧
    (onChangeLink exC4st { opensInNewTab := some true }).stoppedAddingLink =
      false ∧
    (onChangeLink exC4st { opensInNewTab := some true }).newNextLinkValue =
      some { opensInNewTab := some true } ∧
    (onChangeLink
      { exC4st with nextLinkValue :=
          (onChangeLink exC4st { opensInNewTab := some true }).newNextLinkValue }
      { url := some "example.com" }).newNextLinkValue = none ∧
    ∃ v2 l f,
      (onChangeLink
        { exC4st with nextLinkValue :=
            (onChangeLink exC4st
              { opensInNewTab := some true }).newNextLinkValue }
        { url := some "example.com" }).committed = some v2 ∧
      fmtEntry v2.formats exC4st.value.start = some l ∧ f ∈ l ∧
      ("target", "_blank") ∈ f.attrs :=
  onChangeLink_pending_toggle_flow exC4st "example.com" rfl rfl rfl rfl rfl
    (by decide) (by decide)

/-- Every list begins with itself. -/
theorem beginsWith_self : ∀ l : List Char, beginsWith l l = true
  | [] => rfl
  | c :: cs => by
    show (c == c && beginsWith cs cs) = true
    rw [beq_self_eq_true, beginsWith_self cs]
    rfl

/-- A pattern first occurs in itself at index 0. -/
theorem firstOccurrence_self : ∀ l : List Char, firstOccurrence l l = some 0
  | [] => rfl
  | c :: cs => by
    rw [firstOccurrence, if_pos (beginsWith_self (c :: cs))]

/-- Reading a spliced formats array inside the replacement block. -/
theorem take_append_get? (fs M D : List (Option (List Format))) (s j : Nat)
    (hs : s ≤ fs.length) (hj : j < M.length) :
    (fs.take s ++ M ++ D).get? (s + j) = M.get? j := by
  have hlen : (fs.take s).length = s := by
    rw [List.length_take]
    omega
  rw [List.append_assoc]
  rw [List.get?_append_right (by rw [hlen]; omega)]
  rw [hlen]
  have hidx : s + j - s = j := by omega
  rw [hidx]
  exact List.get?_append hj

/-- A string replacement of a value's whole text. -/
theorem replace_str_full (w : RichTextValue) (pat rep : List Char)
    (hw : w.text = pat) :
    replace w pat (Replacement.str rep) =
      { text := rep
        formats :=
          List.replicate rep.length (fmtEntry w.formats 0) ++
            w.formats.drop pat.length
        start := rep.length
        «end» := rep.length
        activeFormats := w.activeFormats } := by
  subst hw
  simp only [replace, firstOccurrence_self]
  simp only [List.take_zero, List.nil_append, Nat.zero_add, List.drop_length,
    List.append_nil]

/-- A value replacement at a known first occurrence. -/
theorem replace_val_at (v : RichTextValue) (pat : List Char)
    (w : RichTextValue) (off : Nat)
    (hocc : firstOccurrence pat v.text = some off) :
    replace v pat (Replacement.val w) =
      { text := v.text.take off ++ w.text ++ v.text.drop (off + pat.length)
        formats :=
          v.formats.take off ++ w.formats ++
            v.formats.drop (off + pat.length)
        start := off + w.text.length
        «end» := off + w.text.length
        activeFormats := v.activeFormats } := by
  simp only [replace, hocc]

/-- C3 (amended): given an active link whose current URL normalizes to a
valid href, a selection covering exactly the link's boundary text — which
occurs there first in the value, carries no markup, and has uniform format
lists — and an `onChangeLink` input carrying the unchanged URL, the current
type/id/new-tab settings, and a changed display text, the committed value
contains the new text at the original boundary, the re-applied link format
is rebuilt with the original attributes (url normalized, type, id, new-tab
flag), the non-link formats of the boundary are preserved over the new text,
the selection collapses to the end of the replacement, and the announcement
is the edited one. -/
theorem onChangeLink_text_edit (v : RichTextValue) (cu tOld tNew : String)
    (aty ai atg : Option String)
    (hse : v.start < v.«end»)
    (hwfF : v.«end» ≤ v.formats.length)
    (hwfT : v.«end» ≤ v.text.length)
    (hslice : (v.text.drop v.start).take (v.«end» - v.start) = tOld.toList)
    (htag : stripHTML tOld.toList = tOld.toList)
    (hocc : firstOccurrence tOld.toList v.text = some v.start)
    (htNew : tNew ≠ "")
    (hdiff : tNew ≠ tOld)
    (hvalid : isValidHref (prependHTTP cu) = true)
    (hunif : ∀ i, i < v.«end» → v.start ≤ i →
      fmtEntry v.formats i = fmtEntry v.formats v.start) :
    (onChangeLink ⟨true, ⟨some cu, aty, ai, atg⟩, v, none⟩
      { url := some cu, type := aty, id := ai,
        opensInNewTab := some (atg == some "_blank"),
        text := some tNew }).spoken = [Announcement.linkEdited] ∧
    ∃ v2,
      (onChangeLink ⟨true, ⟨some cu, aty, ai, atg⟩, v, none⟩
        { url := some cu, type := aty, id := ai,
          opensInNewTab := some (atg == some "_blank"),
          text := some tNew }).committed = some v2 ∧
      v2.text = v.text.take v.start ++ tNew.toList ++ v.text.drop v.«end» ∧
      (∀ j, j < tNew.toList.length →
        fmtEntry v2.formats (v.start + j) =
          some (((fmtEntry v.formats v.start).getD []).filter
              (fun f => f.ftype != "core/link") ++
            [createLinkFormat (some (prependHTTP cu)) aty ai
              (some (atg == some "_blank"))])) ∧
      v2.start = v.start + tNew.toList.length ∧
      v2.«end» = v.start + tNew.toList.length ∧
      v2.activeFormats = [] := by
  have hncol : isCollapsed v = false := by
    rw [isCollapsed]
    exact beq_eq_false_iff_ne.mpr (by omega)
  have hrange : componentTextRange v = (v.start, v.«end») := by
    rw [componentTextRange, hncol]
    rfl
  have hct : componentText v = tOld := by
    rw [componentText, richLinkTextValue, hrange]
    show String.mk
      (stripHTML ((v.text.drop v.start).take (v.«end» - v.start))) = tOld
    rw [hslice, htag]
    rfl
  have hjs : ∀ b : Option String, jsOr (some tNew) b = some tNew := by
    intro b
    show (if tNew = "" then b else some tNew) = some tNew
    rw [if_neg htNew]
  have hlenOld : tOld.toList.length = v.«end» - v.start := by
    rw [← hslice]
    rw [List.length_take, List.length_drop]
    omega
  have hsum : v.start + tOld.toList.length = v.«end» := by omega
  have hrtv : richLinkTextValue v =
      { text := tOld.toList
        formats := (v.formats.drop v.start).take (v.«end» - v.start)
        start := 0
        «end» := 0
        activeFormats := [] } := by
    rw [richLinkTextValue, hrange]
    show slice v v.start v.«end» = _
    rw [slice, hslice]
  have hE0 : fmtEntry ((v.formats.drop v.start).take (v.«end» - v.start)) 0 =
      fmtEntry v.formats v.start := by
    rw [fmtEntry, fmtEntry]
    rw [List.get?_take (by omega)]
    rw [List.get?_drop]
    rw [Nat.add_zero]
  have hdropnil :
      ((v.formats.drop v.start).take (v.«end» - v.start)).drop
        tOld.toList.length = [] := by
    apply List.drop_eq_nil_of_le
    rw [List.length_take, List.length_drop]
    omega
  have hinner : replace (richLinkTextValue v) tOld.toList
      (Replacement.str tNew.toList) =
      { text := tNew.toList
        formats :=
          List.replicate tNew.toList.length (fmtEntry v.formats v.start)
        start := tNew.toList.length
        «end» := tNew.toList.length
        activeFormats := [] } := by
    rw [hrtv]
    rw [replace_str_full _ tOld.toList tNew.toList rfl]
    simp only [hE0, hdropnil, List.append_nil]
  have hfmt2 : applyFormat
      { text := tNew.toList
        formats :=
          List.replicate tNew.toList.length (fmtEntry v.formats v.start)
        start := tNew.toList.length
        «end» := tNew.toList.length
        activeFormats := [] }
      (createLinkFormat (some (prependHTTP cu)) aty ai
        (some (atg == some "_blank"))) 0 tNew.toList.length =
      { text := tNew.toList
        formats :=
          List.replicate tNew.toList.length
            (some (((fmtEntry v.formats v.start).getD []).filter
                (fun f => f.ftype != "core/link") ++
              [createLinkFormat (some (prependHTTP cu)) aty ai
                (some (atg == some "_blank"))]))
        start := tNew.toList.length
        «end» := tNew.toList.length
        activeFormats := [] } := by
    show ({ text := tNew.toList
            formats := applyFormatAux _ 0 tNew.toList.length 0
              (List.replicate tNew.toList.length
                (fmtEntry v.formats v.start))
            start := tNew.toList.length
            «end» := tNew.toList.length
            activeFormats := [] } : RichTextValue) = _
    rw [applyFormatAux_replicate _ _ _ _ 0 (by omega)]
    rfl
  have hann : announceFor true (some (prependHTTP cu)) =
      Announcement.linkEdited := by
    simp [announceFor, hvalid]
  have key : onChangeLink ⟨true, ⟨some cu, aty, ai, atg⟩, v, none⟩
      { url := some cu, type := aty, id := ai,
        opensInNewTab := some (atg == some "_blank"),
        text := some tNew } =
      { newNextLinkValue := none
        committed := some
          { text := (replace v tOld.toList (Replacement.val
              (applyFormat
                (replace (richLinkTextValue v) tOld.toList
                  (Replacement.str tNew.toList))
                (createLinkFormat (some (prependHTTP cu)) aty ai
                  (some (atg == some "_blank"))) 0
                tNew.toList.length))).text
            formats := (replace v tOld.toList (Replacement.val
              (applyFormat
                (replace (richLinkTextValue v) tOld.toList
                  (Replacement.str tNew.toList))
                (createLinkFormat (some (prependHTTP cu)) aty ai
                  (some (atg == some "_blank"))) 0
                tNew.toList.length))).formats
            start := (replace v tOld.toList (Replacement.val
              (applyFormat
                (replace (richLinkTextValue v) tOld.toList
                  (Replacement.str tNew.toList))
                (createLinkFormat (some (prependHTTP cu)) aty ai
                  (some (atg == some "_blank"))) 0
                tNew.toList.length))).«end»
            «end» := (replace v tOld.toList (Replacement.val
              (applyFormat
                (replace (richLinkTextValue v) tOld.toList
                  (Replacement.str tNew.toList))
                (createLinkFormat (some (prependHTTP cu)) aty ai
                  (some (atg == some "_blank"))) 0
                tNew.toList.length))).«end»
            activeFormats := [] }
        stoppedAddingLink := true
        spoken := [announceFor true (some (prependHTTP cu))] } := by
    simp only [onChangeLink, linkValueOf, mergeLinkValue, Option.getD_none,
      Option.getD_some, Option.some_orElse, Option.none_orElse,
      Option.orElse_none, Option.map_some', bne_self_eq_false,
      beq_self_eq_true, Bool.false_and, Bool.and_false, hncol, hct, hjs]
    rfl
  have hfin : replace v tOld.toList (Replacement.val
      (applyFormat
        (replace (richLinkTextValue v) tOld.toList
          (Replacement.str tNew.toList))
        (createLinkFormat (some (prependHTTP cu)) aty ai
          (some (atg == some "_blank"))) 0 tNew.toList.length)) =
      { text := v.text.take v.start ++ tNew.toList ++
          v.text.drop (v.start + tOld.toList.length)
        formats := v.formats.take v.start ++
          List.replicate tNew.toList.length
            (some (((fmtEntry v.formats v.start).getD []).filter
                (fun f => f.ftype != "core/link") ++
              [createLinkFormat (some (prependHTTP cu)) aty ai
                (some (atg == some "_blank"))])) ++
          v.formats.drop (v.start + tOld.toList.length)
        start := v.start + tNew.toList.length
        «end» := v.start + tNew.toList.length
        activeFormats := v.activeFormats } := by
    rw [hinner, hfmt2]
    rw [replace_val_at v tOld.toList _ v.start hocc]
  rw [hsum] at hfin
  refine ⟨by rw [key, hann], ?_⟩
  refine ⟨{ text := v.text.take v.start ++ tNew.toList ++ v.text.drop v.«end»
            formats := v.formats.take v.start ++
              List.replicate tNew.toList.length
                (some (((fmtEntry v.formats v.start).getD []).filter
                    (fun f => f.ftype != "core/link") ++
                  [createLinkFormat (some (prependHTTP cu)) aty ai
                    (some (atg == some "_blank"))])) ++
              v.formats.drop v.«end»
            start := v.start + tNew.toList.length
            «end» := v.start + tNew.toList.length
            activeFormats := [] }, ?_, rfl, ?_, rfl, rfl, rfl⟩
  · rw [key, hfin]
  · intro j hj
    show ((v.formats.take v.start ++
        List.replicate tNew.toList.length
          (some (((fmtEntry v.formats v.start).getD []).filter
              (fun f => f.ftype != "core/link") ++
            [createLinkFormat (some (prependHTTP cu)) aty ai
              (some (atg == some "_blank"))])) ++
        v.formats.drop v.«end»).get? (v.start + j)).bind id = _
    rw [take_append_get? _ _ _ _ j (by omega)
      (by rw [List.length_replicate]; omega)]
    rw [List.get?_eq_getElem?]
    rw [List.getElem?_replicate]
    rw [if_pos hj]
    rfl

/-- C3 witness: a concrete text-only edit of an active valid link, replacing
`old` by `new` at the selected boundary `[3,6)`. -/
theorem onChangeLink_text_edit_witness :
    (onChangeLink ⟨true, ⟨some "http://x", none, none, none⟩, exC3wv, none⟩
      { url := some "http://x", type := none, id := none,
        opensInNewTab := some ((none : Option String) == some "_blank"),
        text := some "new" }).spoken = [Announcement.linkEdited] ∧
    ∃ v2,
      (onChangeLink ⟨true, ⟨some "http://x", none, none, none⟩, exC3wv, none⟩
        { url := some "http://x", type := none, id := none,
          opensInNewTab := some ((none : Option String) == some "_blank"),
          text := some "new" }).committed = some v2 ∧
      v2.text = exC3wv.text.take exC3wv.start ++ "new".toList ++
        exC3wv.text.drop exC3wv.«end» ∧
      (∀ j, j < "new".toList.length →
        fmtEntry v2.formats (exC3wv.start + j) =
          some (((fmtEntry exC3wv.formats exC3wv.start).getD []).filter
              (fun f => f.ftype != "core/link") ++
            [createLinkFormat (some (prependHTTP "http://x")) none none
              (some ((none : Option String) == some "_blank"))])) ∧
      v2.start = exC3wv.start + "new".toList.length ∧
      v2.«end» = exC3wv.start + "new".toList.length ∧
      v2.activeFormats = [] :=
  onChangeLink_text_edit exC3wv "http://x" "old" "new" none none none
    (by decide) (by decide) (by decide) (by decide) (by decide) (by decide)
    (by decide) (by decide) (by decide) (by decide)

/-- C3 counterexample: at `exC3st` the link is active, the input's URL equals
the current URL (the empty string) and only the display text changes from
`old` to `new`, yet the spoken announcement is the invalid-URL warning, not
the edited one — and the committed text is `new old`: the replacement hit
the first occurrence of `old`, before the link's boundary `[4,7)`. -/
theorem onChangeLink_text_edit_counterexample :
    exC3st.isActive = true ∧
    exC3st.activeAttributes.url = some "" ∧
    componentText exC3st.value = "old" ∧
    (onChangeLink exC3st { url := some "", text := some "new" }).spoken ≠
      [Announcement.linkEdited] ∧
    (onChangeLink exC3st { url := some "", text := some "new" }).spoken =
      [Announcement.invalidWarning] ∧
    (onChangeLink exC3st
      { url := some "", text := some "new" }).committed.map
        RichTextValue.text = some "new old".toList := by
  decide

end Gutenberg
